import Mathlib

/-!
# Cloudflare-DDNS: a verification development of `bootstrap/main.go`

The Go program is embedded shallowly.  Go `string`s are Lean `String`s, Go `int` is `Int`
(no arithmetic is performed on it), a value of type `interface{}` produced by
`encoding/json` is a `JSON` tree, a run-time panic is an explicit result, and every
effect (a call of `makeCloudflareAPIRequest`, a call of `updateRecord`, a log line, an
HTTP GET of a trace endpoint) is recorded in an explicit log.
-/

set_option autoImplicit false

namespace CloudflareDDNS

/-! ## Data model -/

/-- Value of `defaultTTL`. -/
def defaultTTL : Int := 300

/-- Go `type Zone struct`. -/
structure Zone where
  ID : String
  Name : String
  UpdateRootDomain : Bool
  Subdomains : List String
  deriving DecidableEq, Repr

/-- Go `type Config struct`. -/
structure Config where
  Zones : List Zone
  IPv4Enabled : Bool
  IPv6Enabled : Bool
  TTL : Int
  deriving DecidableEq, Repr

/-- Go `type DNSRecord struct`; the field `Type` is spelled `Type_` because `Type` is
reserved. -/
structure DNSRecord where
  Type_ : String
  Name : String
  Content : String
  TTL : Int
  deriving DecidableEq, Repr

/-- Dynamic value held by an `interface{}` after `json.Unmarshal`: `nil`, `bool`,
`float64`, `string`, `[]interface{}` or `map[string]interface{}`.  The program never
inspects a number, so its payload is kept as an integer.  An object is an association
list read by first match, which represents the decoded Go map. -/
inductive JSON where
  | null : JSON
  | bool (b : Bool) : JSON
  | number (n : Int) : JSON
  | string (s : String) : JSON
  | array (xs : List JSON) : JSON
  | object (kvs : List (String × JSON)) : JSON

/-- Go `map[string]interface{}` that is not nil. -/
abbrev Obj := List (String × JSON)

/-- Go map read `m[k]`: the stored value, or the nil interface when the key is absent. -/
def index (m : Obj) (k : String) : JSON :=
  match m.lookup k with
  | some v => v
  | none => JSON.null

/-- Go map read on a map that may be nil: reading a nil map yields the zero value. -/
def indexNilable (m : Option Obj) (k : String) : JSON :=
  match m with
  | some o => index o k
  | none => JSON.null

/-- Type assertion `v.(string)`; `none` stands for the run-time panic. -/
def assertString : JSON → Option String
  | JSON.string s => some s
  | _ => none

/-- Type assertion `v.([]interface{})`; `none` stands for the run-time panic. -/
def assertArray : JSON → Option (List JSON)
  | JSON.array xs => some xs
  | _ => none

/-- Type assertion `v.(map[string]interface{})`; `none` stands for the run-time panic. -/
def assertObject : JSON → Option Obj
  | JSON.object kvs => some kvs
  | _ => none

/-! ## findExistingRecord -/

/-- Body of the `for _, record := range ...` loop of `findExistingRecord`.  The result
`none` is a panic raised by a failed type assertion; `some (existingID, modified)` is the
pair the function returns.  The loop stops (`break`) at the first entry whose name
equals `fqdn`. -/
def findExistingRecordLoop (fqdn content : String) : List JSON → Option (String × Bool)
  | [] => some ("", false)
  | record :: rest =>
    match assertObject record with
    | none => none
    | some r =>
      match assertString (index r "name") with
      | none => none
      | some name =>
        if name = fqdn then
          match assertString (index r "id") with
          | none => none
          | some existingID =>
            match assertString (index r "content") with
            | none => none
            | some c => some (existingID, if c ≠ content then true else false)
        else findExistingRecordLoop fqdn content rest

/-- Go `findExistingRecord`; `existingRecords = none` is the nil map. -/
def findExistingRecord (existingRecords : Option Obj) (fqdn content : String) :
    Option (String × Bool) :=
  match existingRecords with
  | none => some ("", false)
  | some m =>
    match assertArray (index m "result") with
    | none => none
    | some entries => findExistingRecordLoop fqdn content entries

/-! ## The provider client -/

/-- One call of `makeCloudflareAPIRequest(endpoint, method, data)`.  The only values the
program passes as `data` are `nil` and a `DNSRecord`. -/
structure Call where
  endpoint : String
  method : String
  data : Option DNSRecord

/-- The errors `makeCloudflareAPIRequest` can return, one constructor per `fmt.Errorf`
site; `provider errors` is `fmt.Errorf("%v", result["errors"])`. -/
inductive APIError where
  | creatingRequest (cause : String) : APIError
  | tokenNotSet : APIError
  | makingRequest (cause : String) : APIError
  | readingResponse (cause : String) : APIError
  | decodingResponse (cause : String) : APIError
  | provider (errors : JSON) : APIError

/-- How far one call of `makeCloudflareAPIRequest` gets, in the order of its checks:
`http.NewRequest` fails, the environment variable `CLOUDFLARE_API_TOKEN` is empty,
`client.Do` fails, `io.ReadAll` fails, `json.Unmarshal` fails, or the body decodes into
`result` (`none` is the nil map left by the body `null`). -/
inductive Exchange where
  | newRequestFails (cause : String) : Exchange
  | tokenUnset : Exchange
  | doFails (cause : String) : Exchange
  | readAllFails (cause : String) : Exchange
  | unmarshalFails (cause : String) : Exchange
  | decoded (result : Option Obj) : Exchange

/-- Behaviour of the environment and of the provider: given the calls made so far and the
current call, what this call meets.  Any dependence on earlier traffic is allowed. -/
abbrev Provider := List Call → Call → Exchange

/-- Go `makeCloudflareAPIRequest`.  `history` is the list of earlier calls. -/
def makeCloudflareAPIRequest (p : Provider) (history : List Call)
    (endpoint method : String) (data : Option DNSRecord) : Except APIError (Option Obj) :=
  match p history { endpoint := endpoint, method := method, data := data } with
  | Exchange.newRequestFails cause => Except.error (APIError.creatingRequest cause)
  | Exchange.tokenUnset => Except.error APIError.tokenNotSet
  | Exchange.doFails cause => Except.error (APIError.makingRequest cause)
  | Exchange.readAllFails cause => Except.error (APIError.readingResponse cause)
  | Exchange.unmarshalFails cause => Except.error (APIError.decodingResponse cause)
  | Exchange.decoded result =>
    match indexNilable result "errors" with
    | JSON.null => Except.ok result
    | errors => Except.error (APIError.provider errors)

/-! ## The reconciler -/

/-- The four `log.Printf` lines of the reconciler. -/
inductive LogLine where
  | fetchFailed (err : APIError) : LogLine
  | updating (record : DNSRecord) : LogLine
  | updateFailed (record : DNSRecord) (err : APIError) : LogLine
  | doesNotExist (name : String) : LogLine

/-- Observable steps of a reconciliation pass, in program order: a call of
`makeCloudflareAPIRequest`, a call of `updateRecord` (with the zone and the record it was
given), and a log line. -/
inductive Event where
  | request (c : Call) : Event
  | reconcile (zone : Zone) (record : DNSRecord) : Event
  | logged (line : LogLine) : Event

/-- The calls of `makeCloudflareAPIRequest` recorded in a log. -/
def requests : List Event → List Call
  | [] => []
  | Event.request c :: rest => c :: requests rest
  | _ :: rest => requests rest

/-- The calls of `updateRecord` recorded in a log, as (zone, reconciled name). -/
def reconciled : List Event → List (Zone × String)
  | [] => []
  | Event.reconcile z r :: rest => (z, r.Name) :: reconciled rest
  | _ :: rest => reconciled rest

/-- How a pass ends: it returns, or a panic unwinds it.  Both carry the log so far. -/
inductive Run where
  | completed (log : List Event) : Run
  | aborted (log : List Event) : Run

/-- The log of a run. -/
def Run.log : Run → List Event
  | Run.completed l => l
  | Run.aborted l => l

/-- Go `updateRecord`, started with the log `log`. -/
def updateRecord (p : Provider) (log : List Event) (zone : Zone)
    (existingRecords : Option Obj) (record : DNSRecord) : Run :=
  let log1 := log ++ [Event.reconcile zone record]
  match findExistingRecord existingRecords record.Name record.Content with
  | none => Run.aborted log1
  | some (existingID, modified) =>
    if existingID ≠ "" ∧ modified = true then
      let endpoint := "zones/" ++ zone.ID ++ "/dns_records/" ++ existingID
      let call : Call := { endpoint := endpoint, method := "PATCH", data := some record }
      let log2 := log1 ++ [Event.logged (LogLine.updating record), Event.request call]
      match makeCloudflareAPIRequest p (requests log1) endpoint "PATCH" (some record) with
      | Except.error err =>
        Run.completed (log2 ++ [Event.logged (LogLine.updateFailed record err)])
      | Except.ok _ => Run.completed log2
    else if existingID = "" then
      Run.completed (log1 ++ [Event.logged (LogLine.doesNotExist record.Name)])
    else Run.completed log1

/-- The loop `for _, subdomain := range zone.Subdomains` of `updateRecords`.  The Go code
overwrites `record.Name` before each call and reads no other mutated state, so the record
passed on is `record` with its name replaced. -/
def updateSubdomains (p : Provider) (zone : Zone) (existingRecords : Option Obj)
    (record : DNSRecord) : List String → List Event → Run
  | [], log => Run.completed log
  | subdomain :: rest, log =>
    match updateRecord p log zone existingRecords
        { record with Name := subdomain ++ "." ++ zone.Name } with
    | Run.completed log1 => updateSubdomains p zone existingRecords record rest log1
    | Run.aborted log1 => Run.aborted log1

/-- The listing call `updateRecords` makes for a zone. -/
def listingCall (zone : Zone) (record : DNSRecord) : Call :=
  { endpoint := "zones/" ++ zone.ID ++ "/dns_records?per_page=5000000&type=" ++ record.Type_,
    method := "GET", data := none }

/-- The loop `for _, zone := range config.Zones` of `updateRecords`. -/
def updateZones (p : Provider) (record : DNSRecord) : List Zone → List Event → Run
  | [], log => Run.completed log
  | zone :: rest, log =>
    let call := listingCall zone record
    let log1 := log ++ [Event.request call]
    match makeCloudflareAPIRequest p (requests log) call.endpoint call.method call.data with
    | Except.error err =>
      updateZones p record rest (log1 ++ [Event.logged (LogLine.fetchFailed err)])
    | Except.ok existingRecords =>
      let afterRoot : Run :=
        if zone.UpdateRootDomain = true then
          updateRecord p log1 zone existingRecords { record with Name := zone.Name }
        else Run.completed log1
      match afterRoot with
      | Run.aborted log2 => Run.aborted log2
      | Run.completed log2 =>
        match updateSubdomains p zone existingRecords record zone.Subdomains log2 with
        | Run.aborted log3 => Run.aborted log3
        | Run.completed log3 => updateZones p record rest log3

/-- Go `updateRecords`, started with an empty log. -/
def updateRecords (config : Config) (p : Provider) (record : DNSRecord) : Run :=
  updateZones p record config.Zones []

/-! ## The address resolver -/

/-- Go `strings.Split(s, sep)` for a one-byte separator, on the characters of `s`: the
pieces between successive occurrences of `sep`; a string without `sep` gives one piece. -/
def Split (sep : Char) : List Char → List (List Char)
  | [] => [[]]
  | c :: cs =>
    if c = sep then [] :: Split sep cs
    else
      match Split sep cs with
      | [] => [[c]]
      | piece :: pieces => (c :: piece) :: pieces

/-- Go `strings.HasPrefix(s, pre)`. -/
def HasPrefix : List Char → List Char → Bool
  | _, [] => true
  | [], _ :: _ => false
  | c :: s, d :: pre => if c = d then HasPrefix s pre else false

/-- The errors `fetchNetworkTrace` can return: from `http.Get`, from `io.ReadAll`, and
`fmt.Errorf("%s not found", key)`. -/
inductive FetchError where
  | getFailed (cause : String) : FetchError
  | readFailed (cause : String) : FetchError
  | notFound (key : String) : FetchError
  deriving DecidableEq, Repr

/-- The loop over the lines of the body in `fetchNetworkTrace`.  The result is `none` when
the index expression `strings.Split(line, "=")[1]` is out of range (a panic), and
otherwise the pair (value, error) the function returns. -/
def scanLines (key : String) : List (List Char) → Option (String × Option FetchError)
  | [] => some ("", some (FetchError.notFound key))
  | line :: rest =>
    if HasPrefix line (key.data ++ ['=']) = true then
      match (Split '=' line)[1]? with
      | some value => some (String.mk value, none)
      | none => none
    else scanLines key rest

/-- The parsing step of `fetchNetworkTrace`: split the body at newlines and scan.  Go
splits bytes; the separators `\n` and `=` are single bytes that occur inside no multi-byte
UTF-8 sequence, so splitting the characters of the text gives the same pieces. -/
def parseTrace (body key : String) : Option (String × Option FetchError) :=
  scanLines key (Split '\n' body.data)

/-- What an HTTP GET of a trace URL meets: `http.Get` fails, `io.ReadAll` fails, or a body
is read. -/
inductive HTTPResult where
  | getFails (cause : String) : HTTPResult
  | readFails (cause : String) : HTTPResult
  | body (text : String) : HTTPResult

/-- Go `fetchNetworkTrace`; `net` gives what each URL meets. -/
def fetchNetworkTrace (net : String → HTTPResult) (url key : String) :
    Option (String × Option FetchError) :=
  match net url with
  | HTTPResult.getFails cause => some ("", some (FetchError.getFailed cause))
  | HTTPResult.readFails cause => some ("", some (FetchError.readFailed cause))
  | HTTPResult.body text => parseTrace text key

/-- Result of `getIPs`: the returned map as key/value pairs in insertion order, and the
trace URLs that were fetched, in order. -/
structure Resolved where
  ips : List (String × DNSRecord)
  queried : List String
  deriving DecidableEq, Repr

/-- The shape shared by the IPv4 and the IPv6 block of `getIPs`: fetch from `primary`, on
an error fetch from `secondary`, and insert a record when the address is not empty.
`none` is a panic inside `fetchNetworkTrace`. -/
def detect (ttl : Int) (net : String → HTTPResult) (primary secondary mapKey recordType : String)
    (acc : Resolved) : Option Resolved :=
  match fetchNetworkTrace net primary "ip" with
  | none => none
  | some (ip1, err1) =>
    let second : Option (String × List String) :=
      match err1 with
      | none => some (ip1, acc.queried ++ [primary])
      | some _ =>
        match fetchNetworkTrace net secondary "ip" with
        | none => none
        | some (ip2, _) => some (ip2, acc.queried ++ [primary, secondary])
    match second with
    | none => none
    | some (ip, queried) =>
      if ip ≠ "" then
        let record : DNSRecord := { Type_ := recordType, Name := "", Content := ip, TTL := ttl }
        some { ips := acc.ips ++ [(mapKey, record)], queried := queried }
      else some { ips := acc.ips, queried := queried }

/-- Primary and secondary trace URL for IPv4. -/
def ipv4Primary : String := "https://1.1.1.1/cdn-cgi/trace"
/-- Secondary trace URL for IPv4. -/
def ipv4Secondary : String := "https://1.0.0.1/cdn-cgi/trace"
/-- Primary trace URL for IPv6. -/
def ipv6Primary : String := "https://[2606:4700:4700::1111]/cdn-cgi/trace"
/-- Secondary trace URL for IPv6. -/
def ipv6Secondary : String := "https://[2606:4700:4700::1001]/cdn-cgi/trace"

/-- Go `getIPs`; `none` is a panic. -/
def getIPs (config : Config) (net : String → HTTPResult) : Option Resolved :=
  let start : Resolved := { ips := [], queried := [] }
  let after4 : Option Resolved :=
    if config.IPv4Enabled = true then
      detect config.TTL net ipv4Primary ipv4Secondary "ipv4" "A" start
    else some start
  match after4 with
  | none => none
  | some r4 =>
    if config.IPv6Enabled = true then
      detect config.TTL net ipv6Primary ipv6Secondary "ipv6" "AAAA" r4
    else some r4

/-! ## Configuration loading -/

/-- What `loadConfig` meets: `os.ReadFile` fails, `json.Unmarshal` fails, or the file
decodes and leaves `decoded` in the variable `config`. -/
inductive ConfigFile where
  | unreadable (cause : String) : ConfigFile
  | malformed (cause : String) : ConfigFile
  | parsed (decoded : Config) : ConfigFile

/-- Go `loadConfig`: the error it returns, or the value of `config` when it returns nil. -/
def loadConfig : ConfigFile → Except String Config
  | ConfigFile.unreadable cause => Except.error ("error reading config.json: " ++ cause)
  | ConfigFile.malformed cause => Except.error ("error parsing config.json: " ++ cause)
  | ConfigFile.parsed decoded =>
    if decoded.TTL < 60 then Except.ok { decoded with TTL := defaultTTL }
    else Except.ok decoded


/-! ## Predicates used to state the properties -/

/-- The entry is an object whose `name` is the string `fqdn`. -/
def hasName (fqdn : String) : JSON → Bool
  | JSON.object r =>
    match index r "name" with
    | JSON.string n => decide (n = fqdn)
    | _ => false
  | _ => false

/-- The entry is an object whose `name` is a string. -/
def exposesName : JSON → Bool
  | JSON.object r =>
    match index r "name" with
    | JSON.string _ => true
    | _ => false
  | _ => false


/-! ## Concrete inputs -/

/-- Zone of the scenario of the specification. -/
def scenarioZone : Zone :=
  { ID := "z1", Name := "example.com", UpdateRootDomain := true, Subdomains := ["www"] }

/-- Existing entry `r1` of the scenario. -/
def entryR1 : Obj :=
  [("id", JSON.string "r1"), ("name", JSON.string "example.com"),
   ("content", JSON.string "203.0.113.1")]

/-- Existing entry `r2` of the scenario. -/
def entryR2 : Obj :=
  [("id", JSON.string "r2"), ("name", JSON.string "www.example.com"),
   ("content", JSON.string "203.0.113.9")]

/-- A second entry named `www.example.com`, with older content. -/
def entryR3 : Obj :=
  [("id", JSON.string "r3"), ("name", JSON.string "www.example.com"),
   ("content", JSON.string "203.0.113.1")]

/-- Decoded listing of the scenario, followed by the duplicate `r3`. -/
def scenarioListing : Obj :=
  [("result", JSON.array [JSON.object entryR1, JSON.object entryR2, JSON.object entryR3])]

/-- Desired record of the scenario for the name `name`. -/
def desired (name : String) : DNSRecord :=
  { Type_ := "A", Name := name, Content := "203.0.113.9", TTL := 300 }

/-- Provider that answers every listing with the scenario and every update with `null`. -/
def scenarioProvider : Provider := fun _ c =>
  if c.method = "GET" then Exchange.decoded (some scenarioListing) else Exchange.decoded none

/-- Entry named `example.com` whose id is the empty string. -/
def entryEmptyId : Obj :=
  [("id", JSON.string ""), ("name", JSON.string "example.com"),
   ("content", JSON.string "203.0.113.1")]

/-- Listing that holds only `entryEmptyId`. -/
def emptyIdListing : Obj := [("result", JSON.array [JSON.object entryEmptyId])]

/-- Entry without a `name` field. -/
def entryNameless : Obj := [("id", JSON.string "r7"), ("content", JSON.string "203.0.113.1")]

/-- Listing that holds only `entryNameless`. -/
def namelessListing : Obj := [("result", JSON.array [JSON.object entryNameless])]


/-- Whether the endpoint `url` succeeds: `fetchNetworkTrace` returns without an error. -/
def succeeded (net : String → HTTPResult) (url : String) : Bool :=
  match fetchNetworkTrace net url "ip" with
  | some (_, none) => true
  | _ => false

/-- The address returned by the first succeeding endpoint: that of `primary` when it
succeeds, otherwise that of `secondary` when it succeeds. -/
def firstSuccess (net : String → HTTPResult) (primary secondary : String) : Option String :=
  match fetchNetworkTrace net primary "ip" with
  | some (v, none) => some v
  | _ =>
    match fetchNetworkTrace net secondary "ip" with
    | some (v, none) => some v
    | _ => none

/-- The entry the resolver is to produce for one protocol: present when the protocol is
enabled and the first succeeding endpoint returned a non-empty address. -/
def expectedEntry (enabled : Bool) (net : String → HTTPResult)
    (primary secondary mapKey recordType : String) (ttl : Int) : List (String × DNSRecord) :=
  if enabled = true then
    match firstSuccess net primary secondary with
    | some a =>
      if a ≠ "" then [(mapKey, { Type_ := recordType, Name := "", Content := a, TTL := ttl })]
      else []
    | none => []
  else []

/-- The endpoints the resolver is to query for one protocol: the primary when the protocol
is enabled, and the secondary only when the primary failed. -/
def expectedQueries (enabled : Bool) (net : String → HTTPResult)
    (primary secondary : String) : List String :=
  if enabled = true then
    if succeeded net primary = true then [primary] else [primary, secondary]
  else []

/-- Success envelope of the provider: `success` is true, `errors` and `messages` are empty
arrays, and `result` holds the two records of the scenario. -/
def emptyErrorsBody : Obj :=
  [("success", JSON.bool true), ("errors", JSON.array []), ("messages", JSON.array []),
   ("result", JSON.array [JSON.object entryR1, JSON.object entryR2])]

/-- Provider that answers every call with `emptyErrorsBody`. -/
def emptyErrorsProvider : Provider := fun _ _ => Exchange.decoded (some emptyErrorsBody)

/-- Configuration of the scenario: one zone, IPv4 only. -/
def scenarioConfig : Config :=
  { Zones := [scenarioZone], IPv4Enabled := true, IPv6Enabled := false, TTL := 300 }

/-- Trace endpoints of the fallback scenario: the primary IPv4 endpoint fails, the
secondary returns `198.51.100.4`. -/
def fallbackNet : String → HTTPResult := fun url =>
  if url = ipv4Primary then HTTPResult.getFails "timeout"
  else HTTPResult.body "fl=1\nip=198.51.100.4\nts=5\n"

/-- Trace endpoints whose bodies carry the line `ip=` with nothing after it. -/
def emptyAddressNet : String → HTTPResult := fun _ => HTTPResult.body "fl=1\nip=\nts=5\n"


/-- The entry is an object whose `name`, `id` and `content` are strings, as the data model
of the specification describes an existing record. -/
def wellShapedEntry : JSON → Bool
  | JSON.object r =>
    (assertString (index r "name")).isSome && (assertString (index r "id")).isSome &&
      (assertString (index r "content")).isSome
  | _ => false

/-- The decoded listing is the nil map, or an object whose `result` is an array of
well-shaped entries. -/
def wellShaped : Option Obj → Bool
  | none => true
  | some m =>
    match index m "result" with
    | JSON.array entries => entries.all wellShapedEntry
    | _ => false

/-- Every listing call that succeeds returns a well-shaped listing. -/
def ListingsWellShaped (p : Provider) : Prop :=
  ∀ (history : List Call) (c : Call) (result : Option Obj), c.method = "GET" →
    makeCloudflareAPIRequest p history c.endpoint c.method c.data = Except.ok result →
    wellShaped result = true

/-- Every listing call succeeds. -/
def ListingsSucceed (p : Provider) : Prop :=
  ∀ (history : List Call) (c : Call), c.method = "GET" →
    ∃ result, makeCloudflareAPIRequest p history c.endpoint c.method c.data = Except.ok result

/-- The names to reconcile for a zone, in order: the zone name when `update_root_domain`
is set, then `label.zoneName` for each configured label. -/
def zoneNames (zone : Zone) : List String :=
  (if zone.UpdateRootDomain = true then [zone.Name] else []) ++
    zone.Subdomains.map (fun label => label ++ "." ++ zone.Name)

/-- The calls of `updateRecord` to expect for a zone: its names, each with the zone. -/
def zoneReconciliations (zone : Zone) : List (Zone × String) :=
  (zoneNames zone).map (fun name => (zone, name))

/-- The listing calls recorded in a log: the calls made with method GET. -/
def listings : List Event → List Call
  | [] => []
  | Event.request c :: rest => if c.method = "GET" then c :: listings rest else listings rest
  | _ :: rest => listings rest

/-- A log without its log lines: the calls of the provider and of `updateRecord`. -/
def steps : List Event → List Event
  | [] => []
  | Event.logged _ :: rest => steps rest
  | e :: rest => e :: steps rest

/-- The pass over the zones as the specification describes it, from the log `log` to the
log `out`: zones are taken in configured order; each gets one listing call; after a failed
listing only the failure is logged and the pass moves on; after a successful listing the
calls of `updateRecord` are those of `zoneReconciliations`, in order, with no provider
call other than PATCH among them, and the pass moves on. -/
def ZonesPass (p : Provider) (record : DNSRecord) : List Zone → List Event → List Event → Prop
  | [], log, out => out = log
  | zone :: rest, log, out =>
    match makeCloudflareAPIRequest p (requests log) (listingCall zone record).endpoint
        (listingCall zone record).method (listingCall zone record).data with
    | Except.error err =>
      ZonesPass p record rest
        (log ++ [Event.request (listingCall zone record),
                 Event.logged (LogLine.fetchFailed err)]) out
    | Except.ok _ =>
      ∃ evs, reconciled evs = zoneReconciliations zone ∧
        (∀ c ∈ requests evs, c.method = "PATCH") ∧
        ZonesPass p record rest (log ++ Event.request (listingCall zone record) :: evs) out

/-- Two runs end the same way after the same calls, log lines apart. -/
def sameSteps : Run → Run → Prop
  | Run.completed a, Run.completed b => steps a = steps b
  | Run.aborted a, Run.aborted b => steps a = steps b
  | _, _ => False


/-- Two providers answer every listing call alike; their answers to update calls are
unrelated. -/
def AgreeOnListings (p q : Provider) : Prop :=
  ∀ (history : List Call) (c : Call), c.method = "GET" → q history c = p history c

/-- Provider that answers listings like `scenarioProvider` and fails every update. -/
def failingUpdates : Provider := fun _ c =>
  if c.method = "GET" then Exchange.decoded (some scenarioListing)
  else Exchange.doFails "connection reset"

/-- Zone whose root domain is not to be updated. -/
def subdomainZone : Zone :=
  { ID := "z2", Name := "example.org", UpdateRootDomain := false, Subdomains := ["www", "api"] }

/-- Configuration with the scenario zone followed by `subdomainZone`. -/
def twoZoneConfig : Config :=
  { Zones := [scenarioZone, subdomainZone], IPv4Enabled := true, IPv6Enabled := false,
    TTL := 300 }

/-- Address record handed to `updateRecords` in the scenario. -/
def scenarioRecord : DNSRecord :=
  { Type_ := "A", Name := "", Content := "203.0.113.9", TTL := 300 }

/-- Decoded response `{"result": null}`: no `errors` field and no array of records. -/
def nullResultBody : Obj := [("success", JSON.bool true), ("result", JSON.null)]

/-- Provider that answers every call with `nullResultBody`. -/
def nullResultProvider : Provider := fun _ _ => Exchange.decoded (some nullResultBody)

/-- Provider that answers every call with the empty object. -/
def emptyObjectProvider : Provider := fun _ _ => Exchange.decoded (some [])


/-! ## Lemmas on logs -/

theorem requests_append (a b : List Event) : requests (a ++ b) = requests a ++ requests b := by
  induction a with
  | nil => rfl
  | cons e rest ih => cases e <;> simp [requests, ih]

theorem reconciled_append (a b : List Event) :
    reconciled (a ++ b) = reconciled a ++ reconciled b := by
  induction a with
  | nil => rfl
  | cons e rest ih => cases e <;> simp [reconciled, ih]

/-! ## Lemmas on findExistingRecord -/

/-- An entry that exposes a name other than `fqdn` is skipped by the loop. -/
theorem loop_skip (fqdn content : String) (e : JSON) (rest : List JSON)
    (h1 : exposesName e = true) (h2 : hasName fqdn e = false) :
    findExistingRecordLoop fqdn content (e :: rest) = findExistingRecordLoop fqdn content rest := by
  cases e with
  | object r =>
    cases hn : index r "name" with
    | string n =>
      have : n ≠ fqdn := by simpa [hasName, hn] using h2
      simp [findExistingRecordLoop, assertObject, assertString, hn, this]
    | _ => simp [exposesName, hn] at h1
  | _ => simp [exposesName] at h1

/-- Entries that expose names other than `fqdn` are all skipped. -/
theorem loop_skip_many (fqdn content : String) (pre rest : List JSON)
    (h : ∀ e ∈ pre, exposesName e = true ∧ hasName fqdn e = false) :
    findExistingRecordLoop fqdn content (pre ++ rest) = findExistingRecordLoop fqdn content rest := by
  induction pre with
  | nil => rfl
  | cons e pre ih =>
    have he := h e (List.mem_cons_self _ _)
    rw [List.cons_append, loop_skip fqdn content e _ he.1 he.2]
    exact ih (fun x hx => h x (List.mem_cons_of_mem _ hx))

/-- At an entry named `fqdn` with string id and content the loop returns. -/
theorem loop_hit (fqdn content : String) (r : Obj) (rest : List JSON) (id c : String)
    (hname : index r "name" = JSON.string fqdn) (hid : index r "id" = JSON.string id)
    (hc : index r "content" = JSON.string c) :
    findExistingRecordLoop fqdn content (JSON.object r :: rest)
      = some (id, if c ≠ content then true else false) := by
  simp [findExistingRecordLoop, assertObject, assertString, hname, hid, hc]

/-- Whatever the entries before the first match look like, the loop either panics or
returns the id of the first match with `modified = false` when that match carries the
desired content. -/
theorem loop_current (fqdn content : String) (pre post : List JSON) (r : Obj)
    (hpre : ∀ e ∈ pre, hasName fqdn e = false)
    (hname : index r "name" = JSON.string fqdn)
    (hc : index r "content" = JSON.string content) :
    findExistingRecordLoop fqdn content (pre ++ JSON.object r :: post) = none ∨
    ∃ id, findExistingRecordLoop fqdn content (pre ++ JSON.object r :: post) = some (id, false) := by
  induction pre with
  | nil =>
    cases hid : index r "id" with
    | string id =>
      right
      exact ⟨id, by simp [findExistingRecordLoop, assertObject, assertString, hname, hid, hc]⟩
    | _ =>
      left
      simp [findExistingRecordLoop, assertObject, assertString, hname, hid]
  | cons e pre ih =>
    have ih2 := ih (fun x hx => hpre x (List.mem_cons_of_mem _ hx))
    have he := hpre e (List.mem_cons_self _ _)
    cases e with
    | object o =>
      cases hn : index o "name" with
      | string n =>
        have : n ≠ fqdn := by simpa [hasName, hn] using he
        simpa [findExistingRecordLoop, assertObject, assertString, hn, this] using ih2
      | _ => left; simp [findExistingRecordLoop, assertObject, assertString, hn]
    | _ => left; simp [findExistingRecordLoop, assertObject]


/-- When no entry is named `fqdn`, the loop panics or reports that nothing was found. -/
theorem loop_absent (fqdn content : String) (entries : List JSON)
    (hno : ∀ e ∈ entries, hasName fqdn e = false) :
    findExistingRecordLoop fqdn content entries = none ∨
    findExistingRecordLoop fqdn content entries = some ("", false) := by
  induction entries with
  | nil => right; rfl
  | cons e rest ih =>
    have ih2 := ih (fun x hx => hno x (List.mem_cons_of_mem _ hx))
    have he := hno e (List.mem_cons_self _ _)
    cases e with
    | object o =>
      cases hn : index o "name" with
      | string n =>
        have : n ≠ fqdn := by simpa [hasName, hn] using he
        simpa [findExistingRecordLoop, assertObject, assertString, hn, this] using ih2
      | _ => left; simp [findExistingRecordLoop, assertObject, assertString, hn]
    | _ => left; simp [findExistingRecordLoop, assertObject]

/-- A panic inside `findExistingRecord` ends `updateRecord` before any call. -/
theorem updateRecord_of_panic (p : Provider) (log : List Event) (zone : Zone)
    (existing : Option Obj) (record : DNSRecord)
    (h : findExistingRecord existing record.Name record.Content = none) :
    updateRecord p log zone existing record = Run.aborted (log ++ [Event.reconcile zone record]) := by
  simp [updateRecord, h]

/-- With `modified = false` and a non-empty id `updateRecord` does nothing. -/
theorem updateRecord_of_current (p : Provider) (log : List Event) (zone : Zone)
    (existing : Option Obj) (record : DNSRecord) (id : String)
    (h : findExistingRecord existing record.Name record.Content = some (id, false))
    (hid : id ≠ "") :
    updateRecord p log zone existing record
      = Run.completed (log ++ [Event.reconcile zone record]) := by
  simp [updateRecord, h, hid]

/-- With an empty id `updateRecord` only logs that the record does not exist. -/
theorem updateRecord_of_empty_id (p : Provider) (log : List Event) (zone : Zone)
    (existing : Option Obj) (record : DNSRecord) (modified : Bool)
    (h : findExistingRecord existing record.Name record.Content = some ("", modified)) :
    updateRecord p log zone existing record
      = Run.completed (log ++ [Event.reconcile zone record,
          Event.logged (LogLine.doesNotExist record.Name)]) := by
  simp [updateRecord, h]

/-- With `modified = true` and a non-empty id `updateRecord` issues the PATCH. -/
theorem updateRecord_of_modified (p : Provider) (log : List Event) (zone : Zone)
    (existing : Option Obj) (record : DNSRecord) (id : String)
    (h : findExistingRecord existing record.Name record.Content = some (id, true))
    (hid : id ≠ "") :
    ∃ tail, updateRecord p log zone existing record
      = Run.completed (log ++ [Event.reconcile zone record,
          Event.logged (LogLine.updating record),
          Event.request { endpoint := "zones/" ++ zone.ID ++ "/dns_records/" ++ id,
                          method := "PATCH", data := some record }] ++ tail) ∧
      requests tail = [] ∧ reconciled tail = [] := by
  simp only [updateRecord, h]
  cases hreq : makeCloudflareAPIRequest p (requests (log ++ [Event.reconcile zone record]))
      ("zones/" ++ zone.ID ++ "/dns_records/" ++ id) "PATCH" (some record) with
  | error err =>
    exact ⟨[Event.logged (LogLine.updateFailed record err)], by simp [hid], rfl, rfl⟩
  | ok v => exact ⟨[], by simp [hid], rfl, rfl⟩


/-! ## C1, C2, C3: the decision rule of updateRecord -/

/-- C1 (amended): when the entries of the `result` list before the first entry named
`record.Name` are objects with a string name, and that first entry has a string id and a
string content different from `record.Content`, then: if the id is not the empty string,
`updateRecord` returns normally and issues exactly one provider call, PATCH to
`zones/{zone.ID}/dns_records/{id}` with the desired record as body; and if the id is the
empty string, `findExistingRecord` returns `("", true)`, and `updateRecord` treats the
record as absent: it logs that the record does not exist and issues no provider call. -/
theorem updateRecord_patches_first_match (p : Provider) (log : List Event) (zone : Zone)
    (m : Obj) (record : DNSRecord) (pre post : List JSON) (r : Obj) (id c : String)
    (hres : index m "result" = JSON.array (pre ++ JSON.object r :: post))
    (hpre : ∀ e ∈ pre, exposesName e = true ∧ hasName record.Name e = false)
    (hname : index r "name" = JSON.string record.Name)
    (hid : index r "id" = JSON.string id)
    (hc : index r "content" = JSON.string c)
    (hdiff : c ≠ record.Content) :
    (id ≠ "" →
      ∃ out, updateRecord p log zone (some m) record = Run.completed out ∧
        requests out = requests log ++
          [{ endpoint := "zones/" ++ zone.ID ++ "/dns_records/" ++ id, method := "PATCH",
             data := some record }]) ∧
    (id = "" →
      findExistingRecord (some m) record.Name record.Content = some ("", true) ∧
      updateRecord p log zone (some m) record
        = Run.completed (log ++ [Event.reconcile zone record,
            Event.logged (LogLine.doesNotExist record.Name)]) ∧
      requests (updateRecord p log zone (some m) record).log = requests log) := by
  have hfind : findExistingRecord (some m) record.Name record.Content = some (id, true) := by
    simp only [findExistingRecord, hres, assertArray]
    rw [loop_skip_many _ _ _ _ hpre, loop_hit _ _ _ _ id c hname hid hc]
    simp [hdiff]
  constructor
  · intro hne
    obtain ⟨tail, hrun, hreq, _⟩ :=
      updateRecord_of_modified p log zone (some m) record id hfind hne
    exact ⟨_, hrun, by simp [requests_append, requests, hreq]⟩
  · intro hempty
    subst hempty
    have hrun := updateRecord_of_empty_id p log zone (some m) record true hfind
    refine ⟨hfind, hrun, ?_⟩
    rw [hrun]
    simp [Run.log, requests_append, requests]

/-- Witness of C1 on the scenario: the root record is patched at `r1`. -/
theorem updateRecord_patches_first_match_witness :
    requests (updateRecord scenarioProvider [] scenarioZone (some scenarioListing)
        (desired "example.com")).log
      = [{ endpoint := "zones/z1/dns_records/r1", method := "PATCH",
           data := some (desired "example.com") }] ∧
    requests (updateRecord scenarioProvider [] scenarioZone (some emptyIdListing)
        (desired "example.com")).log = [] := by
  obtain ⟨out, hrun, hreq⟩ := (updateRecord_patches_first_match scenarioProvider []
    scenarioZone scenarioListing (desired "example.com") []
    [JSON.object entryR2, JSON.object entryR3] entryR1 "r1" "203.0.113.1"
    rfl (by simp) rfl rfl rfl (by decide)).1 (by decide)
  have hempty := (updateRecord_patches_first_match scenarioProvider []
    scenarioZone emptyIdListing (desired "example.com") [] [] entryEmptyId "" "203.0.113.1"
    rfl (by simp) rfl rfl rfl (by decide)).2 rfl
  refine ⟨?_, hempty.2.2⟩
  rw [hrun]
  exact hreq

/-- C1 as stated fails: the first entry named `example.com` has content different from the
desired content, but its id is the empty string, and `updateRecord` issues no call. -/
theorem updateRecord_empty_id_no_patch :
    index emptyIdListing "result" = JSON.array [JSON.object entryEmptyId] ∧
    index entryEmptyId "name" = JSON.string (desired "example.com").Name ∧
    index entryEmptyId "content" = JSON.string "203.0.113.1" ∧
    "203.0.113.1" ≠ (desired "example.com").Content ∧
    findExistingRecord (some emptyIdListing) "example.com" "203.0.113.9" = some ("", true) ∧
    requests (updateRecord scenarioProvider [] scenarioZone (some emptyIdListing)
        (desired "example.com")).log = [] := by
  refine ⟨rfl, rfl, rfl, by decide, rfl, rfl⟩

/-- C2: when the first entry of the `result` list named `record.Name` has content equal to
`record.Content`, `updateRecord` issues no provider call, whatever the later entries are;
and it returns normally when the entries before the match are objects with a string name
and the match has a string id. -/
theorem updateRecord_current_issues_nothing (p : Provider) (log : List Event) (zone : Zone)
    (m : Obj) (record : DNSRecord) (pre post : List JSON) (r : Obj)
    (hres : index m "result" = JSON.array (pre ++ JSON.object r :: post))
    (hpre : ∀ e ∈ pre, hasName record.Name e = false)
    (hname : index r "name" = JSON.string record.Name)
    (hc : index r "content" = JSON.string record.Content) :
    requests (updateRecord p log zone (some m) record).log = requests log ∧
    ((∀ e ∈ pre, exposesName e = true) → (∃ id, index r "id" = JSON.string id) →
      ∃ out, updateRecord p log zone (some m) record = Run.completed out) := by
  have hfind : findExistingRecord (some m) record.Name record.Content
      = findExistingRecordLoop record.Name record.Content (pre ++ JSON.object r :: post) := by
    simp [findExistingRecord, hres, assertArray]
  constructor
  · rcases loop_current record.Name record.Content pre post r hpre hname hc with h | ⟨id, h⟩
    · rw [updateRecord_of_panic p log zone _ record (hfind.trans h)]
      simp [Run.log, requests_append, requests]
    · by_cases hid : id = ""
      · subst hid
        rw [updateRecord_of_empty_id p log zone _ record false (hfind.trans h)]
        simp [Run.log, requests_append, requests]
      · rw [updateRecord_of_current p log zone _ record id (hfind.trans h) hid]
        simp [Run.log, requests_append, requests]
  · rintro hshape ⟨id, hid⟩
    have h : findExistingRecord (some m) record.Name record.Content = some (id, false) := by
      rw [hfind, loop_skip_many _ _ _ _ (fun e he => ⟨hshape e he, hpre e he⟩),
        loop_hit _ _ _ _ id record.Content hname hid hc]
      simp
    by_cases hid0 : id = ""
    · subst hid0
      exact ⟨_, updateRecord_of_empty_id p log zone _ record false h⟩
    · exact ⟨_, updateRecord_of_current p log zone _ record id h hid0⟩

/-- Witness of C2 on the scenario: `www.example.com` is current at `r2`, the later
duplicate `r3` differs, and no call is issued. -/
theorem updateRecord_current_issues_nothing_witness :
    requests (updateRecord scenarioProvider [] scenarioZone (some scenarioListing)
        (desired "www.example.com")).log = [] :=
  (updateRecord_current_issues_nothing scenarioProvider [] scenarioZone scenarioListing
    (desired "www.example.com") [JSON.object entryR1] [JSON.object entryR3] entryR2
    rfl (by decide) rfl rfl).1


/-- C3 (amended): when no entry of the `result` list is named `record.Name`, `updateRecord`
issues no provider call, so the missing record is never created; and when moreover the
record set is nil, or every entry of its `result` list is an object with a string name,
`findExistingRecord` returns `("", false)` and `updateRecord` returns after logging that
the record does not exist. -/
theorem updateRecord_absent_issues_nothing (p : Provider) (log : List Event) (zone : Zone)
    (existing : Option Obj) (record : DNSRecord)
    (hno : ∀ m entries, existing = some m → index m "result" = JSON.array entries →
      ∀ e ∈ entries, hasName record.Name e = false) :
    requests (updateRecord p log zone existing record).log = requests log ∧
    ((existing = none ∨ ∃ m entries, existing = some m ∧
        index m "result" = JSON.array entries ∧ ∀ e ∈ entries, exposesName e = true) →
      findExistingRecord existing record.Name record.Content = some ("", false) ∧
      updateRecord p log zone existing record
        = Run.completed (log ++ [Event.reconcile zone record,
            Event.logged (LogLine.doesNotExist record.Name)])) := by
  have hfind : findExistingRecord existing record.Name record.Content = none ∨
      findExistingRecord existing record.Name record.Content = some ("", false) := by
    cases existing with
    | none => right; rfl
    | some m =>
      cases hres : index m "result" with
      | array entries =>
        simpa [findExistingRecord, hres, assertArray] using
          loop_absent record.Name record.Content entries (hno m entries rfl hres)
      | _ => left; simp [findExistingRecord, hres, assertArray]
  constructor
  · rcases hfind with h | h
    · rw [updateRecord_of_panic p log zone _ record h]
      simp [Run.log, requests_append, requests]
    · rw [updateRecord_of_empty_id p log zone _ record false h]
      simp [Run.log, requests_append, requests]
  · intro hshape
    have h : findExistingRecord existing record.Name record.Content = some ("", false) := by
      rcases hshape with hnil | ⟨m, entries, hm, hres, hall⟩
      · subst hnil; rfl
      · subst hm
        simp only [findExistingRecord, hres, assertArray]
        have := loop_skip_many record.Name record.Content entries []
          (fun e he => ⟨hall e he, hno m entries rfl hres e he⟩)
        simpa [findExistingRecordLoop] using this
    exact ⟨h, updateRecord_of_empty_id p log zone _ record false h⟩

/-- Witness of C3 on the scenario: `api.example.com` is not listed; nothing is looked up
successfully and nothing is created. -/
theorem updateRecord_absent_issues_nothing_witness :
    requests (updateRecord scenarioProvider [] scenarioZone (some scenarioListing)
        (desired "api.example.com")).log = [] ∧
    findExistingRecord (some scenarioListing) "api.example.com" "203.0.113.9"
      = some ("", false) :=
  have hno : ∀ m entries, some scenarioListing = some m →
      index m "result" = JSON.array entries →
      ∀ e ∈ entries, hasName (desired "api.example.com").Name e = false := by
    intro m entries hm hres
    cases hm
    cases hres
    decide
  have h := updateRecord_absent_issues_nothing scenarioProvider [] scenarioZone
    (some scenarioListing) (desired "api.example.com") hno
  ⟨h.1, (h.2 (Or.inr ⟨scenarioListing, _, rfl, rfl, by decide⟩)).1⟩

/-- C3 as stated fails: no entry of the listing is named `api.example.com`, but the one
entry has no `name` field and `findExistingRecord` panics instead of returning. -/
theorem findExistingRecord_nameless_panics :
    index namelessListing "result" = JSON.array [JSON.object entryNameless] ∧
    hasName "api.example.com" (JSON.object entryNameless) = false ∧
    findExistingRecord (some namelessListing) "api.example.com" "203.0.113.9" = none ∧
    updateRecord scenarioProvider [] scenarioZone (some namelessListing)
        (desired "api.example.com")
      = Run.aborted [Event.reconcile scenarioZone (desired "api.example.com")] := by
  refine ⟨rfl, rfl, rfl, rfl⟩

/-! ## C4: the errors field -/

/-- What the guard `result["errors"] != nil` does: a call whose response decodes returns
the decoded object when the `errors` field is absent or `null`, and returns the error built
from the field for any other value, an empty array included.  No other call returns a
provider error. -/
theorem makeCloudflareAPIRequest_errors_field (p : Provider) (history : List Call)
    (endpoint method : String) (data : Option DNSRecord) :
    (∀ result, p history { endpoint := endpoint, method := method, data := data }
        = Exchange.decoded result →
      (indexNilable result "errors" = JSON.null →
        makeCloudflareAPIRequest p history endpoint method data = Except.ok result) ∧
      (indexNilable result "errors" ≠ JSON.null →
        makeCloudflareAPIRequest p history endpoint method data
          = Except.error (APIError.provider (indexNilable result "errors")))) ∧
    (∀ errors, makeCloudflareAPIRequest p history endpoint method data
        = Except.error (APIError.provider errors) →
      errors ≠ JSON.null ∧ ∃ result,
        p history { endpoint := endpoint, method := method, data := data }
          = Exchange.decoded result ∧ indexNilable result "errors" = errors) := by
  constructor
  · intro result hp
    constructor
    · intro hnull
      simp [makeCloudflareAPIRequest, hp, hnull]
    · intro hne
      cases herr : indexNilable result "errors" with
      | null => exact absurd herr hne
      | _ => simp [makeCloudflareAPIRequest, hp, herr]
  · intro errors h
    simp only [makeCloudflareAPIRequest] at h
    cases hp : p history { endpoint := endpoint, method := method, data := data } with
    | decoded result =>
      rw [hp] at h
      simp only at h
      cases herr : indexNilable result "errors" <;> rw [herr] at h <;> simp at h
      all_goals subst h
      all_goals exact ⟨by simp, result, rfl, herr⟩
    | _ => rw [hp] at h; simp at h

/-- The guard lets through a response without an `errors` field: the scenario listing is
returned. -/
theorem makeCloudflareAPIRequest_scenario_listing :
    makeCloudflareAPIRequest scenarioProvider [] "zones/z1/dns_records?per_page=5000000&type=A"
      "GET" none = Except.ok (some scenarioListing) :=
  ((makeCloudflareAPIRequest_errors_field scenarioProvider []
    "zones/z1/dns_records?per_page=5000000&type=A" "GET" none).1
      (some scenarioListing) rfl).1 rfl

/-- C4: the code departs from the claim on the success envelope of the provider.  The
decoded response carries `"success": true`, `"errors": []` and the two records of the
scenario; its `errors` field is empty, so the claim has the call succeed and return the
decoded object, but `makeCloudflareAPIRequest` returns the error built from `[]`.  With
such answers `updateRecords` lists each zone, logs the failure, reconciles no name and
issues no PATCH, although the record `r1` is out of date. -/
theorem makeCloudflareAPIRequest_empty_errors_fails :
    indexNilable (some emptyErrorsBody) "errors" = JSON.array [] ∧
    makeCloudflareAPIRequest emptyErrorsProvider []
      "zones/z1/dns_records?per_page=5000000&type=A" "GET" none
      = Except.error (APIError.provider (JSON.array [])) ∧
    findExistingRecord (some emptyErrorsBody) "example.com" "203.0.113.9" = some ("r1", true) ∧
    reconciled (updateRecords twoZoneConfig emptyErrorsProvider scenarioRecord).log = [] ∧
    requests (updateRecords twoZoneConfig emptyErrorsProvider scenarioRecord).log
      = [listingCall scenarioZone scenarioRecord, listingCall subdomainZone scenarioRecord] := by
  refine ⟨rfl, rfl, rfl, rfl, rfl⟩


/-! ## Lemmas on the trace parser -/

theorem Split_ne_nil (sep : Char) (s : List Char) : Split sep s ≠ [] := by
  cases s with
  | nil => simp [Split]
  | cons c cs =>
    by_cases h : c = sep
    · simp [Split, h]
    · cases hs : Split sep cs <;> simp [Split, h, hs]

/-- The first piece of a split is the text before the first separator. -/
theorem Split_head (sep : Char) (s : List Char) :
    (Split sep s)[0]? = some (s.takeWhile (fun c => decide (c ≠ sep))) := by
  induction s with
  | nil => simp [Split]
  | cons c cs ih =>
    by_cases h : c = sep
    · simp [Split, h]
    · cases hs : Split sep cs with
      | nil => exact absurd hs (Split_ne_nil sep cs)
      | cons piece pieces =>
        rw [hs] at ih
        simp at ih
        simp [Split, h, hs, List.takeWhile_cons, ih]

/-- The second piece of the split of `k ++ sep :: rest`, when `sep` does not occur in `k`,
is the text of `rest` before its first separator. -/
theorem Split_second (sep : Char) (k rest : List Char) (hk : sep ∉ k) :
    (Split sep (k ++ sep :: rest))[1]? = some (rest.takeWhile (fun c => decide (c ≠ sep))) := by
  induction k with
  | nil => simpa [Split] using Split_head sep rest
  | cons c k ih =>
    have hc : c ≠ sep := fun h => hk (h ▸ List.mem_cons_self _ _)
    have ih2 := ih (fun h => hk (List.mem_cons_of_mem _ h))
    cases hs : Split sep (k ++ sep :: rest) with
    | nil => exact absurd hs (Split_ne_nil sep _)
    | cons piece pieces =>
      rw [hs] at ih2
      simpa [Split, hc, hs] using ih2

theorem HasPrefix_iff (s pre : List Char) :
    HasPrefix s pre = true ↔ ∃ rest, s = pre ++ rest := by
  induction pre generalizing s with
  | nil => simp [HasPrefix]
  | cons d pre ih =>
    cases s with
    | nil => simp [HasPrefix]
    | cons c s =>
      by_cases h : c = d
      · subst h
        simp [HasPrefix, ih]
      · simp [HasPrefix, h]

/-- A line that starts with `ip=` yields the text between that `=` and the next one. -/
theorem scanLines_hit (rest : List Char) (lines : List (List Char)) :
    scanLines "ip" (('i' :: 'p' :: '=' :: rest) :: lines)
      = some (String.mk (rest.takeWhile (fun c => decide (c ≠ '='))), none) := by
  have hp : HasPrefix ('i' :: 'p' :: '=' :: rest) ("ip".data ++ ['=']) = true :=
    (HasPrefix_iff _ _).2 ⟨rest, rfl⟩
  have hs := Split_second '=' ['i', 'p'] rest (by decide)
  simp only [List.cons_append, List.nil_append] at hs
  simp only [scanLines, hp, if_true, hs]

/-- A line that does not start with `ip=` is skipped. -/
theorem scanLines_skip (line : List Char) (lines : List (List Char))
    (h : HasPrefix line ['i', 'p', '='] = false) :
    scanLines "ip" (line :: lines) = scanLines "ip" lines := by
  simp [scanLines, h]

theorem scanLines_skip_many (pre lines : List (List Char))
    (h : ∀ l ∈ pre, HasPrefix l ['i', 'p', '='] = false) :
    scanLines "ip" (pre ++ lines) = scanLines "ip" lines := by
  induction pre with
  | nil => rfl
  | cons l pre ih =>
    rw [List.cons_append, scanLines_skip l _ (h l (List.mem_cons_self _ _))]
    exact ih (fun x hx => h x (List.mem_cons_of_mem _ hx))

/-- Lines are either all without the prefix `ip=`, or there is a first one with it. -/
theorem first_ip_line (lines : List (List Char)) :
    (∀ l ∈ lines, HasPrefix l ['i', 'p', '='] = false) ∨
    ∃ pre rest post, lines = pre ++ ('i' :: 'p' :: '=' :: rest) :: post ∧
      ∀ l ∈ pre, HasPrefix l ['i', 'p', '='] = false := by
  induction lines with
  | nil => left; simp
  | cons l lines ih =>
    cases hl : HasPrefix l ['i', 'p', '='] with
    | true =>
      right
      obtain ⟨rest, hrest⟩ := (HasPrefix_iff _ _).1 hl
      exact ⟨[], rest, lines, by simp [hrest], by simp⟩
    | false =>
      rcases ih with hall | ⟨pre, rest, post, heq, hpre⟩
      · left
        intro x hx
        rcases List.mem_cons.1 hx with rfl | hx
        · exact hl
        · exact hall x hx
      · right
        refine ⟨l :: pre, rest, post, by simp [heq], ?_⟩
        intro x hx
        rcases List.mem_cons.1 hx with rfl | hx
        · exact hl
        · exact hpre x hx

/-- The parsing step never panics for the key `ip`, and it returns an error only together
with the empty string. -/
theorem parseTrace_total (body : String) :
    (∃ v, parseTrace body "ip" = some (v, none)) ∨
    parseTrace body "ip" = some ("", some (FetchError.notFound "ip")) := by
  rcases first_ip_line (Split '\n' body.data) with hall | ⟨pre, rest, post, heq, hpre⟩
  · right
    have := scanLines_skip_many (Split '\n' body.data) [] hall
    simpa [parseTrace, scanLines] using this
  · left
    refine ⟨String.mk (rest.takeWhile (fun c => decide (c ≠ '='))), ?_⟩
    simp only [parseTrace, heq]
    rw [scanLines_skip_many pre _ hpre, scanLines_hit]

/-- The function `fetchNetworkTrace` never panics for the key `ip`; an error comes with the
empty string. -/
theorem fetchNetworkTrace_total (net : String → HTTPResult) (url : String) :
    (∃ v, fetchNetworkTrace net url "ip" = some (v, none)) ∨
    ∃ err, fetchNetworkTrace net url "ip" = some ("", some err) := by
  unfold fetchNetworkTrace
  cases net url with
  | getFails cause => right; exact ⟨_, rfl⟩
  | readFails cause => right; exact ⟨_, rfl⟩
  | body text =>
    rcases parseTrace_total text with ⟨v, h⟩ | h
    · left; exact ⟨v, h⟩
    · right; exact ⟨_, h⟩


/-! ## C10: the parsing step of fetchNetworkTrace -/

/-- C10 (amended): for every body the parsing step with key `ip` never indexes out of
range; it fails, with the not-found error, exactly when no newline-delimited line begins
with `ip=`; otherwise it returns, for the first such line, the text between the prefix
`ip=` and the next `=` of the line, which is the whole remainder of the line when the
remainder holds no `=`. -/
theorem parseTrace_ip (body : String) :
    parseTrace body "ip" ≠ none ∧
    ((∃ v err, parseTrace body "ip" = some (v, some err)) ↔
      ∀ l ∈ Split '\n' body.data, HasPrefix l ['i', 'p', '='] = false) ∧
    ((∀ l ∈ Split '\n' body.data, HasPrefix l ['i', 'p', '='] = false) →
      parseTrace body "ip" = some ("", some (FetchError.notFound "ip"))) ∧
    (∀ pre rest post, Split '\n' body.data = pre ++ ('i' :: 'p' :: '=' :: rest) :: post →
      (∀ l ∈ pre, HasPrefix l ['i', 'p', '='] = false) →
      parseTrace body "ip"
        = some (String.mk (rest.takeWhile (fun c => decide (c ≠ '='))), none) ∧
      ('=' ∉ rest → parseTrace body "ip" = some (String.mk rest, none))) := by
  have hmiss : (∀ l ∈ Split '\n' body.data, HasPrefix l ['i', 'p', '='] = false) →
      parseTrace body "ip" = some ("", some (FetchError.notFound "ip")) := by
    intro hall
    have := scanLines_skip_many (Split '\n' body.data) [] hall
    simpa [parseTrace, scanLines] using this
  have hhit : ∀ pre rest post,
      Split '\n' body.data = pre ++ ('i' :: 'p' :: '=' :: rest) :: post →
      (∀ l ∈ pre, HasPrefix l ['i', 'p', '='] = false) →
      parseTrace body "ip"
        = some (String.mk (rest.takeWhile (fun c => decide (c ≠ '='))), none) := by
    intro pre rest post heq hpre
    simp only [parseTrace, heq]
    rw [scanLines_skip_many pre _ hpre, scanLines_hit]
  refine ⟨?_, ⟨?_, fun hall => ⟨_, _, hmiss hall⟩⟩, hmiss, ?_⟩
  · rcases parseTrace_total body with ⟨v, h⟩ | h <;> simp [h]
  · rintro ⟨v, err, h⟩
    rcases first_ip_line (Split '\n' body.data) with hall | ⟨pre, rest, post, heq, hpre⟩
    · exact hall
    · rw [hhit pre rest post heq hpre] at h
      simp at h
  · intro pre rest post heq hpre
    refine ⟨hhit pre rest post heq hpre, fun hno => ?_⟩
    rw [hhit pre rest post heq hpre]
    have : rest.takeWhile (fun c => decide (c ≠ '=')) = rest := by
      rw [List.takeWhile_eq_self_iff]
      intro c hc
      have : c ≠ '=' := fun h => hno (h ▸ hc)
      simpa using this
    rw [this]

/-- Witness of C10: the value of the first `ip=` line is returned. -/
theorem parseTrace_ip_witness :
    parseTrace "fl=1\nip=203.0.113.9\nts=5\n" "ip" = some ("203.0.113.9", none) :=
  ((parseTrace_ip "fl=1\nip=203.0.113.9\nts=5\n").2.2.2 ["fl=1".data] "203.0.113.9".data
    ["ts=5".data, []] (by decide) (by decide)).2 (by decide)

/-- C10 as stated fails: the only line of the body is `ip=a=b`, the remainder after the
prefix is `a=b`, and the parsing step returns `a`. -/
theorem parseTrace_stops_at_second_equals :
    Split '\n' "ip=a=b".data = ['i' :: 'p' :: '=' :: "a=b".data] ∧
    parseTrace "ip=a=b" "ip" = some ("a", none) ∧
    parseTrace "ip=a=b" "ip" ≠ some ("a=b", none) := by
  refine ⟨by decide, by decide, by decide⟩

/-! ## C6: getIPs -/

/-- One protocol block of `getIPs` produces the expected entry and queries. -/
theorem detect_eq (ttl : Int) (net : String → HTTPResult)
    (primary secondary mapKey recordType : String) (acc : Resolved) :
    detect ttl net primary secondary mapKey recordType acc
      = some { ips := acc.ips ++ expectedEntry true net primary secondary mapKey recordType ttl,
               queried := acc.queried ++ expectedQueries true net primary secondary } := by
  rcases fetchNetworkTrace_total net primary with ⟨v1, h1⟩ | ⟨e1, h1⟩
  · by_cases hv : v1 = "" <;>
      simp [detect, expectedEntry, expectedQueries, firstSuccess, succeeded, h1, hv]
  · rcases fetchNetworkTrace_total net secondary with ⟨v2, h2⟩ | ⟨e2, h2⟩
    · by_cases hv : v2 = "" <;>
        simp [detect, expectedEntry, expectedQueries, firstSuccess, succeeded, h1, h2, hv]
    · simp [detect, expectedEntry, expectedQueries, firstSuccess, succeeded, h1, h2]

/-- The function `getIPs` returns the expected entries and queries of both protocols. -/
theorem getIPs_eq (config : Config) (net : String → HTTPResult) :
    getIPs config net = some
      { ips := expectedEntry config.IPv4Enabled net ipv4Primary ipv4Secondary "ipv4" "A"
                 config.TTL ++
               expectedEntry config.IPv6Enabled net ipv6Primary ipv6Secondary "ipv6" "AAAA"
                 config.TTL,
        queried := expectedQueries config.IPv4Enabled net ipv4Primary ipv4Secondary ++
                   expectedQueries config.IPv6Enabled net ipv6Primary ipv6Secondary } := by
  cases h4 : config.IPv4Enabled <;> cases h6 : config.IPv6Enabled <;>
    simp [getIPs, h4, h6, detect_eq] <;> simp [expectedEntry, expectedQueries]

/-- Membership in the expected entry of one protocol. -/
theorem mem_expectedEntry (enabled : Bool) (net : String → HTTPResult)
    (primary secondary mapKey recordType : String) (ttl : Int) (key : String)
    (record : DNSRecord) :
    (key, record) ∈ expectedEntry enabled net primary secondary mapKey recordType ttl ↔
      key = mapKey ∧ enabled = true ∧ ∃ a, firstSuccess net primary secondary = some a ∧
        a ≠ "" ∧ record = { Type_ := recordType, Name := "", Content := a, TTL := ttl } := by
  cases enabled with
  | false => simp [expectedEntry]
  | true =>
    cases hfirst : firstSuccess net primary secondary with
    | none => simp [expectedEntry, hfirst]
    | some a => by_cases ha : a = "" <;> simp [expectedEntry, hfirst, ha]

/-- The expected entry of one protocol holds at most the key of that protocol. -/
theorem expectedEntry_keys (enabled : Bool) (net : String → HTTPResult)
    (primary secondary mapKey recordType : String) (ttl : Int) :
    (expectedEntry enabled net primary secondary mapKey recordType ttl).map Prod.fst = [] ∨
    (expectedEntry enabled net primary secondary mapKey recordType ttl).map Prod.fst
      = [mapKey] := by
  cases enabled with
  | false => simp [expectedEntry]
  | true =>
    cases hfirst : firstSuccess net primary secondary with
    | none => simp [expectedEntry, hfirst]
    | some a => by_cases ha : a = "" <;> simp [expectedEntry, hfirst, ha]

/-- C6 (amended): for every outcome of the trace endpoints `getIPs` returns, and its result
holds an entry for a protocol exactly when the protocol is enabled and the first
succeeding endpoint (the primary, or the secondary after a failed primary) returned a
non-empty address; the entry has type `A` for IPv4 and `AAAA` for IPv6, that address as
content and `config.TTL` as TTL; no key occurs twice; for each enabled protocol the
primary endpoint is queried, and the secondary only when the primary fails; a protocol
whose endpoints both fail is omitted. -/
theorem getIPs_entries (config : Config) (net : String → HTTPResult) :
    ∃ r, getIPs config net = some r ∧
      (∀ key record, (key, record) ∈ r.ips ↔
        (key = "ipv4" ∧ config.IPv4Enabled = true ∧
          ∃ a, firstSuccess net ipv4Primary ipv4Secondary = some a ∧ a ≠ "" ∧
            record = { Type_ := "A", Name := "", Content := a, TTL := config.TTL }) ∨
        (key = "ipv6" ∧ config.IPv6Enabled = true ∧
          ∃ a, firstSuccess net ipv6Primary ipv6Secondary = some a ∧ a ≠ "" ∧
            record = { Type_ := "AAAA", Name := "", Content := a, TTL := config.TTL })) ∧
      (r.ips.map Prod.fst).Nodup ∧
      r.queried =
        (if config.IPv4Enabled = true then
          if succeeded net ipv4Primary = true then [ipv4Primary]
          else [ipv4Primary, ipv4Secondary]
        else []) ++
        (if config.IPv6Enabled = true then
          if succeeded net ipv6Primary = true then [ipv6Primary]
          else [ipv6Primary, ipv6Secondary]
        else []) := by
  refine ⟨_, getIPs_eq config net, ?_, ?_, rfl⟩
  · intro key record
    simp only [List.mem_append, mem_expectedEntry]
  · simp only [List.map_append]
    rcases expectedEntry_keys config.IPv4Enabled net ipv4Primary ipv4Secondary "ipv4" "A"
        config.TTL with h4 | h4 <;>
      rcases expectedEntry_keys config.IPv6Enabled net ipv6Primary ipv6Secondary "ipv6" "AAAA"
        config.TTL with h6 | h6 <;>
      rw [h4, h6] <;> decide

/-- Witness of C6, the fallback scenario: the primary IPv4 endpoint fails, the secondary
returns `198.51.100.4`, and the result holds the IPv4 record with that content. -/
theorem getIPs_entries_witness :
    getIPs scenarioConfig fallbackNet
      = some { ips := [("ipv4", { Type_ := "A", Name := "", Content := "198.51.100.4",
                                  TTL := 300 })],
               queried := [ipv4Primary, ipv4Secondary] } ∧
    ∃ r, getIPs scenarioConfig fallbackNet = some r ∧
      ("ipv4", { Type_ := "A", Name := "", Content := "198.51.100.4", TTL := 300 }) ∈ r.ips := by
  obtain ⟨r, hr, hmem, _, _⟩ := getIPs_entries scenarioConfig fallbackNet
  refine ⟨by decide, r, hr, (hmem _ _).2 (Or.inl ⟨rfl, rfl, "198.51.100.4", by decide,
    by decide, rfl⟩)⟩

/-- C6 as stated fails: IPv4 is enabled and its primary endpoint succeeds, returning the
empty address of the line `ip=`, yet the result holds no entry. -/
theorem getIPs_omits_empty_address :
    scenarioConfig.IPv4Enabled = true ∧
    fetchNetworkTrace emptyAddressNet ipv4Primary "ip" = some ("", none) ∧
    getIPs scenarioConfig emptyAddressNet = some { ips := [], queried := [ipv4Primary] } := by
  refine ⟨rfl, by decide, by decide⟩

/-! ## C5: the TTL floor -/

/-- C5: for every decoded configuration `loadConfig` succeeds and leaves every field but
the TTL as decoded; the loaded TTL is 300 when the decoded TTL is below 60 and the decoded
TTL otherwise, hence at least 60; and every record `getIPs` then builds carries the loaded
TTL, hence a TTL of at least 60. -/
theorem loadConfig_ttl_floor (decoded : Config) (net : String → HTTPResult) :
    ∃ loaded, loadConfig (ConfigFile.parsed decoded) = Except.ok loaded ∧
      loaded = { decoded with TTL := if decoded.TTL < 60 then 300 else decoded.TTL } ∧
      60 ≤ loaded.TTL ∧
      ∃ r, getIPs loaded net = some r ∧
        ∀ kv ∈ r.ips, kv.2.TTL = loaded.TTL ∧ 60 ≤ kv.2.TTL := by
  have hfloor : (60 : Int) ≤ if decoded.TTL < 60 then 300 else decoded.TTL := by
    split <;> omega
  refine ⟨{ decoded with TTL := if decoded.TTL < 60 then 300 else decoded.TTL }, ?_, rfl,
    hfloor, _, getIPs_eq _ net, ?_⟩
  · by_cases h : decoded.TTL < 60 <;> simp [loadConfig, h, defaultTTL]
  · intro kv hkv
    have httl : kv.2.TTL = if decoded.TTL < 60 then 300 else decoded.TTL := by
      obtain ⟨key, record⟩ := kv
      rcases List.mem_append.1 hkv with h | h
      · obtain ⟨_, _, a, _, _, hrec⟩ := (mem_expectedEntry _ _ _ _ _ _ _ _ _).1 h
        rw [hrec]
      · obtain ⟨_, _, a, _, _, hrec⟩ := (mem_expectedEntry _ _ _ _ _ _ _ _ _).1 h
        rw [hrec]
    exact ⟨httl, httl ▸ hfloor⟩

/-- Witness of C5: a decoded TTL of 30 is loaded as 300. -/
theorem loadConfig_ttl_floor_witness :
    ∃ loaded, loadConfig (ConfigFile.parsed { scenarioConfig with TTL := 30 })
        = Except.ok loaded ∧ loaded.TTL = 300 := by
  obtain ⟨loaded, hload, heq, _, _⟩ :=
    loadConfig_ttl_floor { scenarioConfig with TTL := 30 } fallbackNet
  exact ⟨loaded, hload, by rw [heq]; rfl⟩


/-! ## Lemmas on the reconciliation pass -/

theorem listings_append (a b : List Event) : listings (a ++ b) = listings a ++ listings b := by
  induction a with
  | nil => rfl
  | cons e rest ih =>
    cases e with
    | request c => by_cases h : c.method = "GET" <;> simp [listings, h, ih]
    | _ => simp [listings, ih]

theorem steps_append (a b : List Event) : steps (a ++ b) = steps a ++ steps b := by
  induction a with
  | nil => rfl
  | cons e rest ih => cases e <;> simp [steps, ih]

theorem requests_steps (a : List Event) : requests (steps a) = requests a := by
  induction a with
  | nil => rfl
  | cons e rest ih => cases e <;> simp [steps, requests, ih]

theorem reconciled_steps (a : List Event) : reconciled (steps a) = reconciled a := by
  induction a with
  | nil => rfl
  | cons e rest ih => cases e <;> simp [steps, reconciled, ih]

/-- A log whose calls are all PATCH holds no listing call. -/
theorem listings_of_patches (a : List Event) (h : ∀ c ∈ requests a, c.method = "PATCH") :
    listings a = [] := by
  induction a with
  | nil => rfl
  | cons e rest ih =>
    cases e with
    | request c =>
      have hc : c.method = "PATCH" := h c (by simp [requests])
      have hrest := ih (fun d hd => h d (by simp [requests, hd]))
      simp [listings, hc, hrest]
    | reconcile z r => exact ih (fun d hd => h d (by simpa [requests] using hd))
    | logged l => exact ih (fun d hd => h d (by simpa [requests] using hd))

/-- On well-shaped entries the loop of `findExistingRecord` does not panic. -/
theorem loop_wellShaped (fqdn content : String) (entries : List JSON)
    (h : entries.all wellShapedEntry = true) :
    findExistingRecordLoop fqdn content entries ≠ none := by
  induction entries with
  | nil => simp [findExistingRecordLoop]
  | cons e rest ih =>
    simp only [List.all_cons, Bool.and_eq_true] at h
    obtain ⟨he, hrest⟩ := h
    cases e with
    | object r =>
      simp only [wellShapedEntry, Bool.and_eq_true, Option.isSome_iff_exists] at he
      obtain ⟨⟨⟨n, hn⟩, ⟨i, hi⟩⟩, ⟨c, hc⟩⟩ := he
      by_cases hname : n = fqdn
      · simp [findExistingRecordLoop, assertObject, hn, hi, hc, hname]
      · simpa [findExistingRecordLoop, assertObject, hn, hname] using ih hrest
    | _ => simp [wellShapedEntry] at he

/-- On a well-shaped listing `findExistingRecord` does not panic. -/
theorem findExistingRecord_wellShaped (existing : Option Obj) (fqdn content : String)
    (h : wellShaped existing = true) : findExistingRecord existing fqdn content ≠ none := by
  cases existing with
  | none => simp [findExistingRecord]
  | some m =>
    cases hres : index m "result" with
    | array entries =>
      simp only [wellShaped, hres] at h
      simpa [findExistingRecord, hres, assertArray] using loop_wellShaped fqdn content entries h
    | _ => simp [wellShaped, hres] at h

/-- Every call of `updateRecord` records itself, then either panics at once or returns
after at most log lines and PATCH calls. -/
theorem updateRecord_shape (p : Provider) (log : List Event) (zone : Zone)
    (existing : Option Obj) (record : DNSRecord) :
    (findExistingRecord existing record.Name record.Content = none ∧
      updateRecord p log zone existing record
        = Run.aborted (log ++ [Event.reconcile zone record])) ∨
    (findExistingRecord existing record.Name record.Content ≠ none ∧
      ∃ tail, updateRecord p log zone existing record
          = Run.completed (log ++ Event.reconcile zone record :: tail) ∧
        reconciled tail = [] ∧ ∀ c ∈ requests tail, c.method = "PATCH") := by
  cases hfind : findExistingRecord existing record.Name record.Content with
  | none => exact Or.inl ⟨rfl, updateRecord_of_panic p log zone existing record hfind⟩
  | some found =>
    obtain ⟨id, modified⟩ := found
    refine Or.inr ⟨by simp, ?_⟩
    by_cases hid : id = ""
    · subst hid
      exact ⟨[Event.logged (LogLine.doesNotExist record.Name)],
        by simpa using updateRecord_of_empty_id p log zone existing record modified hfind,
        rfl, by simp [requests]⟩
    · cases modified with
      | false =>
        exact ⟨[], by simpa using updateRecord_of_current p log zone existing record id hfind hid,
          rfl, by simp [requests]⟩
      | true =>
        obtain ⟨tail, hrun, hreq, hrec⟩ :=
          updateRecord_of_modified p log zone existing record id hfind hid
        refine ⟨[Event.logged (LogLine.updating record),
          Event.request { endpoint := "zones/" ++ zone.ID ++ "/dns_records/" ++ id,
                          method := "PATCH", data := some record }] ++ tail,
          by simpa using hrun, by simp [reconciled, hrec], ?_⟩
        intro c hc
        simp [requests, hreq] at hc
        simp [hc]


/-- A panic of `findExistingRecord` shows that the listing is not well-shaped. -/
theorem not_wellShaped_of_panic (existing : Option Obj) (fqdn content : String)
    (h : findExistingRecord existing fqdn content = none) : wellShaped existing = false := by
  cases hw : wellShaped existing with
  | false => rfl
  | true => exact absurd h (findExistingRecord_wellShaped existing fqdn content hw)

/-- The loop over the subdomains reconciles `label.zoneName` for each label in order, and
stops early only by a panic on a listing that is not well-shaped. -/
theorem updateSubdomains_shape (p : Provider) (zone : Zone) (existing : Option Obj)
    (record : DNSRecord) (labels : List String) (log : List Event) :
    ∃ evs, (∀ c ∈ requests evs, c.method = "PATCH") ∧
      ((updateSubdomains p zone existing record labels log = Run.completed (log ++ evs) ∧
          reconciled evs = labels.map (fun label => (zone, label ++ "." ++ zone.Name))) ∨
       (updateSubdomains p zone existing record labels log = Run.aborted (log ++ evs) ∧
          wellShaped existing = false ∧
          reconciled evs <+: labels.map (fun label => (zone, label ++ "." ++ zone.Name)))) := by
  induction labels generalizing log with
  | nil => exact ⟨[], by simp [requests], Or.inl ⟨by simp [updateSubdomains], rfl⟩⟩
  | cons label labels ih =>
    rcases updateRecord_shape p log zone existing
        { record with Name := label ++ "." ++ zone.Name } with ⟨hfind, hrun⟩ | ⟨_, tail, hrun, hrec, hreq⟩
    · refine ⟨[Event.reconcile zone { record with Name := label ++ "." ++ zone.Name }],
        by simp [requests], Or.inr ⟨by simp [updateSubdomains, hrun],
          not_wellShaped_of_panic _ _ _ hfind, ?_⟩⟩
      simp [reconciled]
    · obtain ⟨evs, hpatch, hcases⟩ := ih
        (log ++ Event.reconcile zone { record with Name := label ++ "." ++ zone.Name } :: tail)
      refine ⟨Event.reconcile zone { record with Name := label ++ "." ++ zone.Name } ::
        tail ++ evs, ?_, ?_⟩
      · intro c hc
        simp [requests, requests_append] at hc
        rcases hc with hc | hc
        · exact hreq c hc
        · exact hpatch c hc
      · rcases hcases with ⟨hsub, hnames⟩ | ⟨hsub, hbad, hnames⟩
        · left
          refine ⟨by simp [updateSubdomains, hrun, hsub], ?_⟩
          simp [reconciled, reconciled_append, hrec, hnames]
        · right
          refine ⟨by simp [updateSubdomains, hrun, hsub], hbad, ?_⟩
          simpa [reconciled, reconciled_append, hrec] using hnames

/-- A failed listing is logged and the pass moves to the next zone. -/
theorem updateZones_cons_error (p : Provider) (record : DNSRecord) (zone : Zone)
    (rest : List Zone) (log : List Event) (err : APIError)
    (hreq : makeCloudflareAPIRequest p (requests log) (listingCall zone record).endpoint
      (listingCall zone record).method (listingCall zone record).data = Except.error err) :
    updateZones p record (zone :: rest) log
      = updateZones p record rest
          (log ++ [Event.request (listingCall zone record),
                   Event.logged (LogLine.fetchFailed err)]) := by
  simp [updateZones, hreq]

/-- After a successful listing the calls of `updateRecord` for the zone are those of
`zoneReconciliations`, and the pass moves to the next zone unless a panic on a listing
that is not well-shaped ends it. -/
theorem updateZones_cons_ok (p : Provider) (record : DNSRecord) (zone : Zone)
    (rest : List Zone) (log : List Event) (existing : Option Obj)
    (hreq : makeCloudflareAPIRequest p (requests log) (listingCall zone record).endpoint
      (listingCall zone record).method (listingCall zone record).data = Except.ok existing) :
    ∃ evs, (∀ c ∈ requests evs, c.method = "PATCH") ∧
      ((updateZones p record (zone :: rest) log
            = updateZones p record rest (log ++ Event.request (listingCall zone record) :: evs) ∧
          reconciled evs = zoneReconciliations zone) ∨
       (updateZones p record (zone :: rest) log
            = Run.aborted (log ++ Event.request (listingCall zone record) :: evs) ∧
          wellShaped existing = false ∧ reconciled evs <+: zoneReconciliations zone)) := by
  cases hroot : zone.UpdateRootDomain with
  | false =>
    obtain ⟨evs, hpatch, hcases⟩ := updateSubdomains_shape p zone existing record
      zone.Subdomains (log ++ [Event.request (listingCall zone record)])
    refine ⟨evs, hpatch, ?_⟩
    rcases hcases with ⟨hsub, hnames⟩ | ⟨hsub, hbad, hnames⟩
    · left
      refine ⟨by simp [updateZones, hreq, hroot, hsub], ?_⟩
      simp [zoneReconciliations, zoneNames, hroot, hnames]
    · right
      refine ⟨by simp [updateZones, hreq, hroot, hsub], hbad, ?_⟩
      simpa [zoneReconciliations, zoneNames, hroot] using hnames
  | true =>
    rcases updateRecord_shape p (log ++ [Event.request (listingCall zone record)]) zone existing
        { record with Name := zone.Name } with ⟨hfind, hrun⟩ | ⟨_, tail, hrun, hrec, hpatch1⟩
    · refine ⟨[Event.reconcile zone { record with Name := zone.Name }], by simp [requests],
        Or.inr ⟨by simp [updateZones, hreq, hroot, hrun],
          not_wellShaped_of_panic _ _ _ hfind, ?_⟩⟩
      simp [reconciled, zoneReconciliations, zoneNames, hroot]
    · obtain ⟨evs, hpatch, hcases⟩ := updateSubdomains_shape p zone existing record
        zone.Subdomains (log ++ [Event.request (listingCall zone record)] ++
          Event.reconcile zone { record with Name := zone.Name } :: tail)
      simp only [List.append_assoc, List.cons_append, List.nil_append] at hcases hrun
      refine ⟨Event.reconcile zone { record with Name := zone.Name } :: tail ++ evs, ?_, ?_⟩
      · intro c hc
        simp [requests, requests_append] at hc
        rcases hc with hc | hc
        · exact hpatch1 c hc
        · exact hpatch c hc
      · rcases hcases with ⟨hsub, hnames⟩ | ⟨hsub, hbad, hnames⟩
        · left
          refine ⟨by simp [updateZones, hreq, hroot, hrun, hsub], ?_⟩
          simp [reconciled, reconciled_append, hrec, hnames, zoneReconciliations, zoneNames,
            hroot]
        · right
          refine ⟨by simp [updateZones, hreq, hroot, hrun, hsub], hbad, ?_⟩
          simpa [reconciled, reconciled_append, hrec, zoneReconciliations, zoneNames, hroot]
            using hnames


/-- Every call of `updateRecord` made by the pass is for a configured zone and one of the
names of that zone, also in a pass that a panic ends. -/
theorem updateZones_reconciled_mem (p : Provider) (record : DNSRecord) (zones : List Zone)
    (log : List Event) :
    ∀ zn ∈ reconciled (updateZones p record zones log).log,
      zn ∈ reconciled log ∨ (zn.1 ∈ zones ∧ zn.2 ∈ zoneNames zn.1) := by
  induction zones generalizing log with
  | nil => intro zn hzn; exact Or.inl (by simpa [updateZones, Run.log] using hzn)
  | cons zone rest ih =>
    intro zn hzn
    have hzone : ∀ x ∈ zoneReconciliations zone, x.1 ∈ zone :: rest ∧ x.2 ∈ zoneNames x.1 := by
      intro x hx
      simp only [zoneReconciliations, List.mem_map] at hx
      obtain ⟨name, hname, rfl⟩ := hx
      exact ⟨List.mem_cons_self _ _, hname⟩
    cases hreq : makeCloudflareAPIRequest p (requests log) (listingCall zone record).endpoint
        (listingCall zone record).method (listingCall zone record).data with
    | error err =>
      rw [updateZones_cons_error p record zone rest log err hreq] at hzn
      rcases ih _ zn hzn with h | h
      · left; simpa [reconciled_append, reconciled] using h
      · right; exact ⟨List.mem_cons_of_mem _ h.1, h.2⟩
    | ok existing =>
      obtain ⟨evs, _, hcases⟩ := updateZones_cons_ok p record zone rest log existing hreq
      rcases hcases with ⟨hrun, hnames⟩ | ⟨hrun, _, hnames⟩
      · rw [hrun] at hzn
        rcases ih _ zn hzn with h | h
        · simp only [reconciled_append, reconciled, List.mem_append] at h
          rcases h with h | h
          · exact Or.inl h
          · exact Or.inr (hzone zn (hnames ▸ h))
        · right; exact ⟨List.mem_cons_of_mem _ h.1, h.2⟩
      · rw [hrun] at hzn
        simp only [Run.log, reconciled_append, reconciled, List.mem_append] at hzn
        rcases hzn with h | h
        · exact Or.inl h
        · exact Or.inr (hzone zn (hnames.subset h))

/-- A name of the form `label.zoneName` differs from the zone name. -/
theorem label_name_ne (label name : String) : label ++ "." ++ name ≠ name := by
  intro h
  have h1 := congrArg String.length h
  rw [String.length_append, String.length_append] at h1
  have h2 : ".".length = 1 := rfl
  omega

/-! ## C7: no reconciliation of the bare zone name -/

/-- C7: in every pass of `updateRecords`, for every provider behaviour and every address
record, each name reconciled for a zone whose `update_root_domain` is false has the form
`label.zoneName` for a configured label of that zone, and is never the zone name. -/
theorem updateRecords_skips_root (config : Config) (p : Provider) (record : DNSRecord)
    (zone : Zone) (name : String)
    (hmem : (zone, name) ∈ reconciled (updateRecords config p record).log)
    (hroot : zone.UpdateRootDomain = false) :
    name ≠ zone.Name ∧ ∃ label ∈ zone.Subdomains, name = label ++ "." ++ zone.Name := by
  rcases updateZones_reconciled_mem p record config.Zones [] (zone, name) hmem with h | h
  · simp [reconciled] at h
  · have hname : name ∈ zoneNames zone := h.2
    simp only [zoneNames, hroot, Bool.false_eq_true, if_false, List.nil_append,
      List.mem_map] at hname
    obtain ⟨label, hlabel, rfl⟩ := hname
    exact ⟨label_name_ne label zone.Name, label, hlabel, rfl⟩

/-- Witness of C7: in the two-zone configuration `www.example.org` is reconciled for the
zone `example.org`, whose root is not updated, and it is not the zone name. -/
theorem updateRecords_skips_root_witness :
    (subdomainZone, "www.example.org")
        ∈ reconciled (updateRecords twoZoneConfig scenarioProvider scenarioRecord).log ∧
    "www.example.org" ≠ subdomainZone.Name :=
  ⟨by decide, (updateRecords_skips_root twoZoneConfig scenarioProvider scenarioRecord
    subdomainZone "www.example.org" (by decide) rfl).1⟩


/-- With well-shaped listings the pass over the zones returns, follows `ZonesPass`, makes
one listing call per zone in order, and reconciles the names of every zone in order when
every listing succeeds. -/
theorem updateZones_pass (p : Provider) (record : DNSRecord) (hshape : ListingsWellShaped p)
    (zones : List Zone) (log : List Event) :
    ∃ out, updateZones p record zones log = Run.completed out ∧
      ZonesPass p record zones log out ∧
      listings out = listings log ++ zones.map (fun z => listingCall z record) ∧
      (ListingsSucceed p →
        reconciled out = reconciled log ++ zones.flatMap zoneReconciliations) := by
  induction zones generalizing log with
  | nil => exact ⟨log, rfl, rfl, by simp, fun _ => by simp⟩
  | cons zone rest ih =>
    cases hreq : makeCloudflareAPIRequest p (requests log) (listingCall zone record).endpoint
        (listingCall zone record).method (listingCall zone record).data with
    | error err =>
      obtain ⟨out, hrun, hpass, hlist, _⟩ := ih
        (log ++ [Event.request (listingCall zone record),
                 Event.logged (LogLine.fetchFailed err)])
      refine ⟨out, ?_, ?_, ?_, ?_⟩
      · rw [updateZones_cons_error p record zone rest log err hreq, hrun]
      · simp only [ZonesPass, hreq]
        exact hpass
      · rw [hlist]
        simp [listings_append, listings, listingCall]
      · intro hsucc
        obtain ⟨result, hok⟩ := hsucc (requests log) (listingCall zone record) rfl
        rw [hreq] at hok
        cases hok
    | ok existing =>
      have hwell : wellShaped existing = true :=
        hshape (requests log) (listingCall zone record) existing rfl hreq
      obtain ⟨evs, hpatch, hcases⟩ := updateZones_cons_ok p record zone rest log existing hreq
      rcases hcases with ⟨hstep, hnames⟩ | ⟨_, hbad, _⟩
      · obtain ⟨out, hrun, hpass, hlist, hrec⟩ := ih
          (log ++ Event.request (listingCall zone record) :: evs)
        refine ⟨out, ?_, ?_, ?_, ?_⟩
        · rw [hstep, hrun]
        · simp only [ZonesPass, hreq]
          exact ⟨evs, hnames, hpatch, hpass⟩
        · rw [hlist]
          simp [listings_append, listings, listingCall, listings_of_patches evs hpatch]
        · intro hsucc
          rw [hrec hsucc]
          simp [reconciled_append, reconciled, hnames]
      · rw [hwell] at hbad
        cases hbad

/-- The answer to a PATCH call changes only the log lines of `updateRecord`. -/
theorem updateRecord_sameSteps (p q : Provider) (log log2 : List Event) (zone : Zone)
    (existing : Option Obj) (record : DNSRecord) (hlog : steps log = steps log2) :
    sameSteps (updateRecord p log zone existing record)
      (updateRecord q log2 zone existing record) := by
  cases hfind : findExistingRecord existing record.Name record.Content with
  | none =>
    rw [updateRecord_of_panic p log zone existing record hfind,
      updateRecord_of_panic q log2 zone existing record hfind]
    simp [sameSteps, steps_append, steps, hlog]
  | some found =>
    obtain ⟨id, modified⟩ := found
    by_cases hid : id = ""
    · subst hid
      rw [updateRecord_of_empty_id p log zone existing record modified hfind,
        updateRecord_of_empty_id q log2 zone existing record modified hfind]
      simp [sameSteps, steps_append, steps, hlog]
    · cases modified with
      | false =>
        rw [updateRecord_of_current p log zone existing record id hfind hid,
          updateRecord_of_current q log2 zone existing record id hfind hid]
        simp [sameSteps, steps_append, steps, hlog]
      | true =>
        simp only [updateRecord, hfind]
        cases makeCloudflareAPIRequest p (requests (log ++ [Event.reconcile zone record]))
            ("zones/" ++ zone.ID ++ "/dns_records/" ++ id) "PATCH" (some record) <;>
          cases makeCloudflareAPIRequest q (requests (log2 ++ [Event.reconcile zone record]))
            ("zones/" ++ zone.ID ++ "/dns_records/" ++ id) "PATCH" (some record) <;>
          simp [hid, sameSteps, steps_append, steps, hlog]

/-- The answers to PATCH calls change only the log lines of the subdomain loop. -/
theorem updateSubdomains_sameSteps (p q : Provider) (zone : Zone) (existing : Option Obj)
    (record : DNSRecord) (labels : List String) (log log2 : List Event)
    (hlog : steps log = steps log2) :
    sameSteps (updateSubdomains p zone existing record labels log)
      (updateSubdomains q zone existing record labels log2) := by
  induction labels generalizing log log2 with
  | nil => simpa [updateSubdomains, sameSteps] using hlog
  | cons label labels ih =>
    have h := updateRecord_sameSteps p q log log2 zone existing
      { record with Name := label ++ "." ++ zone.Name } hlog
    simp only [updateSubdomains]
    cases h1 : updateRecord p log zone existing { record with Name := label ++ "." ++ zone.Name } <;>
      cases h2 : updateRecord q log2 zone existing
        { record with Name := label ++ "." ++ zone.Name } <;>
      rw [h1, h2] at h <;> simp only [sameSteps] at h ⊢
    · exact ih _ _ h
    · exact h

/-- Providers that answer listings alike drive the pass through the same calls. -/
theorem updateZones_sameSteps (p q : Provider) (hagree : AgreeOnListings p q)
    (record : DNSRecord) (zones : List Zone) (log log2 : List Event)
    (hlog : steps log = steps log2) :
    sameSteps (updateZones p record zones log) (updateZones q record zones log2) := by
  induction zones generalizing log log2 with
  | nil => simpa [updateZones, sameSteps] using hlog
  | cons zone rest ih =>
    have hreqs : requests log2 = requests log := by
      rw [← requests_steps log2, ← hlog, requests_steps]
    have hsame : makeCloudflareAPIRequest q (requests log2) (listingCall zone record).endpoint
          (listingCall zone record).method (listingCall zone record).data
        = makeCloudflareAPIRequest p (requests log) (listingCall zone record).endpoint
          (listingCall zone record).method (listingCall zone record).data := by
      simp only [makeCloudflareAPIRequest, hreqs]
      rw [hagree (requests log) _ rfl]
    simp only [updateZones, hsame]
    cases makeCloudflareAPIRequest p (requests log) (listingCall zone record).endpoint
        (listingCall zone record).method (listingCall zone record).data with
    | error err => exact ih _ _ (by simp [steps_append, steps, hlog])
    | ok existing =>
      have hlog1 : steps (log ++ [Event.request (listingCall zone record)])
          = steps (log2 ++ [Event.request (listingCall zone record)]) := by
        simp [steps_append, steps, hlog]
      have hsub : ∀ a b, steps a = steps b →
          sameSteps
            (match updateSubdomains p zone existing record zone.Subdomains a with
              | Run.aborted log3 => Run.aborted log3
              | Run.completed log3 => updateZones p record rest log3)
            (match updateSubdomains q zone existing record zone.Subdomains b with
              | Run.aborted log3 => Run.aborted log3
              | Run.completed log3 => updateZones q record rest log3) := by
        intro a b hab
        have h := updateSubdomains_sameSteps p q zone existing record zone.Subdomains a b hab
        cases h1 : updateSubdomains p zone existing record zone.Subdomains a <;>
          cases h2 : updateSubdomains q zone existing record zone.Subdomains b <;>
          rw [h1, h2] at h <;> simp only [sameSteps] at h ⊢
        · exact ih _ _ h
        · exact h
      by_cases hr : zone.UpdateRootDomain = true
      · simp only [hr, if_true]
        have h := updateRecord_sameSteps p q _ _ zone existing
          { record with Name := zone.Name } hlog1
        cases h1 : updateRecord p (log ++ [Event.request (listingCall zone record)]) zone
            existing { record with Name := zone.Name } <;>
          cases h2 : updateRecord q (log2 ++ [Event.request (listingCall zone record)]) zone
            existing { record with Name := zone.Name } <;>
          rw [h1, h2] at h <;> simp only [sameSteps] at h ⊢
        · exact hsub _ _ h
        · exact h
      · simp only [hr, if_false]
        exact hsub _ _ hlog1


/-- The scenario provider answers every listing with the scenario listing. -/
theorem scenarioProvider_listing (history : List Call) (c : Call) (h : c.method = "GET") :
    makeCloudflareAPIRequest scenarioProvider history c.endpoint c.method c.data
      = Except.ok (some scenarioListing) := by
  rw [h]
  rfl

theorem scenarioProvider_wellShaped : ListingsWellShaped scenarioProvider := by
  intro history c result hm hreq
  rw [scenarioProvider_listing history c hm] at hreq
  cases hreq
  decide

theorem scenarioProvider_succeeds : ListingsSucceed scenarioProvider :=
  fun history c hm => ⟨_, scenarioProvider_listing history c hm⟩

/-! ## C8: the names reconciled for a zone, in order -/

/-- C8 (amended): when every listing that succeeds returns a well-shaped record set (nil,
or a `result` array of objects with string `name`, `id` and `content`), `updateRecords`
returns, and its pass is the one `ZonesPass` describes: zones in configured order, and for
every zone whose listing succeeds the names reconciled are the zone name first when
`update_root_domain` is set, then `label.zoneName` for each configured label in order,
each once.  When every listing succeeds the reconciled names are those of all zones. -/
theorem updateRecords_names_in_order (config : Config) (p : Provider) (record : DNSRecord)
    (hshape : ListingsWellShaped p) :
    ∃ out, updateRecords config p record = Run.completed out ∧
      ZonesPass p record config.Zones [] out ∧
      (ListingsSucceed p → reconciled out = config.Zones.flatMap zoneReconciliations) := by
  obtain ⟨out, hrun, hpass, _, hrec⟩ := updateZones_pass p record hshape config.Zones []
  exact ⟨out, hrun, hpass, fun hsucc => by simpa [reconciled] using hrec hsucc⟩

/-- Witness of C8: the names reconciled in the two-zone configuration. -/
theorem updateRecords_names_in_order_witness :
    reconciled (updateRecords twoZoneConfig scenarioProvider scenarioRecord).log
      = [(scenarioZone, "example.com"), (scenarioZone, "www.example.com"),
         (subdomainZone, "www.example.org"), (subdomainZone, "api.example.org")] := by
  obtain ⟨out, hrun, _, hrec⟩ := updateRecords_names_in_order twoZoneConfig scenarioProvider
    scenarioRecord scenarioProvider_wellShaped
  rw [hrun, Run.log, hrec scenarioProvider_succeeds]
  rfl

/-- C8 as stated fails: the listing of the zone succeeds with the body `{"result": null}`,
the zone name is reconciled, a panic ends the pass, and `www.example.com` is never
reconciled. -/
theorem updateRecords_null_result_stops :
    makeCloudflareAPIRequest nullResultProvider [] (listingCall scenarioZone scenarioRecord).endpoint
      (listingCall scenarioZone scenarioRecord).method (listingCall scenarioZone scenarioRecord).data
      = Except.ok (some nullResultBody) ∧
    zoneNames scenarioZone = ["example.com", "www.example.com"] ∧
    updateRecords scenarioConfig nullResultProvider scenarioRecord
      = Run.aborted [Event.request (listingCall scenarioZone scenarioRecord),
          Event.reconcile scenarioZone (desired "example.com")] ∧
    reconciled (updateRecords scenarioConfig nullResultProvider scenarioRecord).log
      = [(scenarioZone, "example.com")] := by
  refine ⟨rfl, rfl, rfl, rfl⟩

/-! ## C9: containment of failures -/

/-- C9 (amended): when every listing that succeeds returns a well-shaped record set,
then whatever else the provider does (any listing or update call may fail),
`updateRecords` returns; it makes exactly one listing call per configured zone, in
configured order; a failed listing skips only the names of its zone (`ZonesPass`); and a
provider that answers the listings alike but the updates differently is driven through
the same provider calls and the same calls of `updateRecord`. -/
theorem updateRecords_contains_failures (config : Config) (p : Provider) (record : DNSRecord)
    (hshape : ListingsWellShaped p) :
    ∃ out, updateRecords config p record = Run.completed out ∧
      listings out = config.Zones.map (fun z => listingCall z record) ∧
      ZonesPass p record config.Zones [] out ∧
      ∀ q, AgreeOnListings p q →
        ∃ out2, updateRecords config q record = Run.completed out2 ∧ steps out2 = steps out := by
  obtain ⟨out, hrun, hpass, hlist, _⟩ := updateZones_pass p record hshape config.Zones []
  refine ⟨out, hrun, by simpa [listings] using hlist, hpass, ?_⟩
  intro q hagree
  have h := updateZones_sameSteps p q hagree record config.Zones [] [] rfl
  rw [show updateZones p record config.Zones [] = Run.completed out from hrun] at h
  cases hq : updateZones q record config.Zones [] with
  | completed out2 =>
    rw [hq] at h
    exact ⟨out2, hq, h.symm⟩
  | aborted out2 =>
    rw [hq] at h
    exact absurd h (by simp [sameSteps])

/-- Witness of C9: in the two-zone configuration one listing call is made per zone, and
failing every update leaves the calls unchanged. -/
theorem updateRecords_contains_failures_witness :
    listings (updateRecords twoZoneConfig scenarioProvider scenarioRecord).log
      = [listingCall scenarioZone scenarioRecord, listingCall subdomainZone scenarioRecord] ∧
    steps (updateRecords twoZoneConfig failingUpdates scenarioRecord).log
      = steps (updateRecords twoZoneConfig scenarioProvider scenarioRecord).log := by
  obtain ⟨out, hrun, hlist, _, hsame⟩ := updateRecords_contains_failures twoZoneConfig
    scenarioProvider scenarioRecord scenarioProvider_wellShaped
  have hagree : AgreeOnListings scenarioProvider failingUpdates := by
    intro history c hm
    simp [scenarioProvider, failingUpdates, hm]
  obtain ⟨out2, hrun2, hsteps⟩ := hsame failingUpdates hagree
  rw [hrun, hrun2]
  exact ⟨hlist, hsteps⟩

/-- C9 as stated fails: the provider answers the first listing with the empty object, which
has no `errors` field; the pass panics while reconciling the first name, and the second of
the two zones gets no listing call. -/
theorem updateRecords_empty_object_aborts :
    twoZoneConfig.Zones.length = 2 ∧
    updateRecords twoZoneConfig emptyObjectProvider scenarioRecord
      = Run.aborted [Event.request (listingCall scenarioZone scenarioRecord),
          Event.reconcile scenarioZone (desired "example.com")] ∧
    listings (updateRecords twoZoneConfig emptyObjectProvider scenarioRecord).log
      = [listingCall scenarioZone scenarioRecord] := by
  refine ⟨rfl, rfl, rfl⟩

end CloudflareDDNS
